import Mathlib

/-!
# Verification of the gbp-ranking-map generator

Shallow embedding of the two Python implementations in this repository:

* `src/generate_analysis.py` — the flat script (grid generation,
  per-point fetching, aggregation into a business registry and a
  `businessId -> gridPointId -> position` mapping);
* `src/generator/generate_analysis.py` — the `GBPAnalysisGenerator`
  class, a near-duplicate of the same computation.

Modelling conventions:

* Python floats are modelled by exact rationals (`ℚ`); `round(x, 6)` is
  modelled by round-half-to-even at six decimal places (`round6`).
* The real-valued cosine of the centre latitude in degrees
  (`math.cos(math.radians(lat))` in the first file,
  `math.cos(lat * math.pi / 180)` in the second — the same real
  function) is abstracted as a parameter `cosDeg : ℚ → ℚ`, since no
  claim depends on its value.
* Python exceptions are modelled by `Except`; `math.sqrt` of a negative
  number raises `ValueError`, `ceil(n / 0)` raises `ZeroDivisionError`.
* Python dicts are modelled as insertion-ordered association lists with
  `dictLookup` / `dictSet` (`d[k] = v` updates in place or appends).
* A per-point fetch outcome is `Option (List Item)`: `none` models a
  transport error (HTTP / JSON failure), `some items` a parsed payload
  (`[]` when the payload carries no usable task result).
-/

/-- Python exceptions that the numeric code in `calculate_grid_dimensions`
can raise: `ValueError` from `math.sqrt` of a negative number, and
`ZeroDivisionError` from `num_points / 0`. -/
inductive PyError where
  | valueError
  | zeroDivisionError
deriving DecidableEq, Repr

/-- Round-half-to-even to an integer, on exact rationals. -/
def roundHalfEven (q : ℚ) : ℤ :=
  let f := ⌊q⌋
  let frac := q - (f : ℚ)
  if frac < 1/2 then f
  else if 1/2 < frac then f + 1
  else if f % 2 = 0 then f else f + 1

/-- Models Python `round(x, 6)` under exact rational semantics:
round-half-to-even at six decimal places. -/
def round6 (q : ℚ) : ℚ := (roundHalfEven (q * 1000000) : ℚ) / 1000000

/-- One grid point as produced by `generate_grid_points`
(the dict `{'id': point_count, 'lat': ..., 'lon': ...}`). -/
structure GridPoint where
  id : ℕ
  lat : ℚ
  lon : ℚ
deriving DecidableEq, Repr

/-- `calculate_grid_dimensions` from `src/generate_analysis.py` (lines 39–44):
`rows = int(math.floor(math.sqrt(num_points)))`,
`cols = int(math.ceil(num_points / rows))`.
For `num_points < 0`, `math.sqrt` raises `ValueError`; for
`num_points = 0`, `rows = 0` and the division raises
`ZeroDivisionError`.  Exact-arithmetic model: `⌊√n⌋ = Nat.sqrt n` and
`⌈n / rows⌉ = (n + rows - 1) / rows` on naturals. -/
def calculate_grid_dimensions (num_points : ℤ) : Except PyError (ℕ × ℕ) :=
  if num_points < 0 then .error .valueError
  else
    let rows := Nat.sqrt num_points.toNat
    if rows = 0 then .error .zeroDivisionError
    else .ok (rows, (num_points.toNat + rows - 1) / rows)

/-- The inner `for j in range(cols)` loop of `generate_grid_points`
(both files have the identical loop): before each cell it checks
`point_count >= num_points` and breaks; otherwise it appends the point
built by `mk i j point_count` and increments the counter.  Returns the
emitted points together with the final counter. -/
def innerLoop (mk : ℕ → ℕ → ℕ → GridPoint) (i num_points : ℕ) :
    List ℕ → ℕ → List GridPoint × ℕ
  | [], point_count => ([], point_count)
  | j :: js, point_count =>
    if num_points ≤ point_count then ([], point_count)
    else
      let r := innerLoop mk i num_points js (point_count + 1)
      (mk i j point_count :: r.1, r.2)

/-- The outer `for i in range(rows)` loop of `generate_grid_points`
(identical in both files), threading `point_count` through the rows. -/
def outerLoop (mk : ℕ → ℕ → ℕ → GridPoint) (cols num_points : ℕ) :
    List ℕ → ℕ → List GridPoint
  | [], _ => []
  | i :: is, point_count =>
    if num_points ≤ point_count then []
    else
      let r := innerLoop mk i num_points (List.range cols) point_count
      r.1 ++ outerLoop mk cols num_points is r.2

/-- `generate_grid_points` from `src/generate_analysis.py` (lines 47–76).
`cosDeg` abstracts `math.cos(math.radians(·))`. -/
def generate_grid_points (cosDeg : ℚ → ℚ) (center_lat center_lon : ℚ)
    (num_points : ℤ) (distance_km : ℚ) : Except PyError (List GridPoint) :=
  match calculate_grid_dimensions num_points with
  | .error e => .error e
  | .ok (rows, cols) =>
    .ok (outerLoop
      (fun i j point_count =>
        { id := point_count
          lat := round6 (center_lat + (-((rows : ℚ) - 1) / 2 + (i : ℚ)) * (distance_km / 111))
          lon := round6 (center_lon + (-((cols : ℚ) - 1) / 2 + (j : ℚ)) * (distance_km / 111)
            / cosDeg center_lat) })
      cols num_points.toNat (List.range rows) 0)

namespace GBPAnalysisGenerator

/-- `GBPAnalysisGenerator.calculate_grid_dimensions` from
`src/generator/generate_analysis.py` (lines 42–48): same computation as
the flat script (`math.floor(math.sqrt(...))` without the redundant
`int(...)` wrappers). -/
def calculate_grid_dimensions (num_points : ℤ) : Except PyError (ℕ × ℕ) :=
  if num_points < 0 then .error .valueError
  else
    let rows := Nat.sqrt num_points.toNat
    if rows = 0 then .error .zeroDivisionError
    else .ok (rows, (num_points.toNat + rows - 1) / rows)

/-- `GBPAnalysisGenerator.calculate_offset` (lines 50–52):
`distance_km / 111`. -/
def calculate_offset (distance_km : ℚ) : ℚ := distance_km / 111

/-- `GBPAnalysisGenerator.generate_grid_points` (lines 54–83).  The
nested loop is character-for-character the one in the flat script, so it
is embedded by the same `innerLoop`/`outerLoop`; `cosDeg` abstracts
`math.cos(· * math.pi / 180)`, the same real function as
`math.cos(math.radians(·))`. -/
def generate_grid_points (cosDeg : ℚ → ℚ) (center_lat center_lon : ℚ)
    (num_points : ℤ) (distance_km : ℚ) : Except PyError (List GridPoint) :=
  match calculate_grid_dimensions num_points with
  | .error e => .error e
  | .ok (rows, cols) =>
    .ok (outerLoop
      (fun i j point_count =>
        { id := point_count
          lat := round6 (center_lat
            + (-((rows : ℚ) - 1) / 2 + (i : ℚ)) * calculate_offset distance_km)
          lon := round6 (center_lon
            + (-((cols : ℚ) - 1) / 2 + (j : ℚ)) * calculate_offset distance_km
            / cosDeg center_lat) })
      cols num_points.toNat (List.range rows) 0)

end GBPAnalysisGenerator

/-- The `rating` sub-object of a provider entry
(`item['rating'] = {'value': ..., 'votes_count': ...}`). -/
structure Rating where
  value : Option ℚ
  votes_count : Option ℤ
deriving DecidableEq, Repr

/-- One provider business entry (`item`) as consumed by the aggregation
code: the fields read are `place_id`, `cid`, `title`, `address` and the
nested `rating` object. -/
structure Item where
  place_id : Option String
  cid : Option String
  title : Option String
  address : Option String
  rating : Option Rating
deriving DecidableEq, Repr

/-- A stored business registry entry (the dict built at
`src/generate_analysis.py` lines 137–143). -/
structure BusinessRecord where
  id : String
  title : Option String
  address : Option String
  rating : Option ℚ
  reviews : Option ℤ
deriving DecidableEq, Repr

/-- Python truthiness of an optional string: `None` and `""` are falsy. -/
def truthy : Option String → Bool
  | some s => s != ""
  | none => false

/-- `biz_id = item.get('place_id') or item.get('cid')` followed by
`if not biz_id: continue` (lines 131–133): a truthy `place_id` wins,
else a truthy `cid`, else the entry carries no usable identifier. -/
def derive_id (item : Item) : Option String :=
  if truthy item.place_id then item.place_id
  else if truthy item.cid then item.cid
  else none

/-- The `BusinessRecord` built from an entry (lines 137–143):
`title`, `address`, `rating.value`, `rating.votes_count`. -/
def mkBusiness (biz_id : String) (item : Item) : BusinessRecord :=
  { id := biz_id
    title := item.title
    address := item.address
    rating := item.rating.bind Rating.value
    reviews := item.rating.bind Rating.votes_count }

/-- Lookup in a Python dict modelled as an insertion-ordered association
list. -/
def dictLookup {α β : Type} [DecidableEq α] : List (α × β) → α → Option β
  | [], _ => none
  | (k, v) :: rest, key => if k = key then some v else dictLookup rest key

/-- `d[k] = v` on a Python dict: update in place if the key is present,
append otherwise. -/
def dictSet {α β : Type} [DecidableEq α] : List (α × β) → α → β → List (α × β)
  | [], key, val => [(key, val)]
  | (k, v) :: rest, key, val =>
    if k = key then (key, val) :: rest else (k, v) :: dictSet rest key val

/-- The mutable state of the aggregation loop in `generate_analysis`
(`src/generate_analysis.py` lines 120–121): the `all_businesses` dict
and the nested `ranking_data` dict. -/
structure AggState where
  all_businesses : List (String × BusinessRecord)
  ranking_data : List (String × List (ℕ × ℕ))
deriving DecidableEq, Repr

/-- Initial aggregation state: two empty dicts. -/
def initState : AggState := ⟨[], []⟩

/-- The `for index, item in enumerate(items)` body of
`generate_analysis` (lines 130–148), with the running `enumerate` index
made explicit: skip entries without a usable identifier, create the
business record on first sighting only, and set
`ranking_data[biz_id][point_id] = index + 1`. -/
def procItems (point_id : ℕ) : ℕ → List Item → AggState → AggState
  | _, [], st => st
  | index, item :: rest, st =>
    match derive_id item with
    | none => procItems point_id (index + 1) rest st
    | some biz_id =>
      procItems point_id (index + 1) rest
        ⟨(if (dictLookup st.all_businesses biz_id).isSome then st.all_businesses
          else dictSet st.all_businesses biz_id (mkBusiness biz_id item)),
         dictSet st.ranking_data biz_id
           (dictSet ((dictLookup st.ranking_data biz_id).getD []) point_id (index + 1))⟩

/-- The `for i, point in enumerate(grid_points)` loop of
`generate_analysis` (lines 123–148), taking for every grid point id the
fetch outcome for that point: `none` (a transport error, turned into
`None` by `call_dataforseo_api`) makes the loop `continue`, a payload is
folded by `procItems`. -/
def aggPoints : List (ℕ × Option (List Item)) → AggState → AggState
  | [], st => st
  | (_, none) :: rest, st => aggPoints rest st
  | (point_id, some items) :: rest, st =>
    aggPoints rest (procItems point_id 0 items st)

/-- Rank lookup in the nested `ranking_data` dict:
`ranking_data[biz_id][point_id]` when both keys are present. -/
def rankLookup (st : AggState) (biz_id : String) (point_id : ℕ) : Option ℕ :=
  (dictLookup st.ranking_data biz_id).bind (fun inner => dictLookup inner point_id)

/-- `generate_analysis` from `src/generate_analysis.py` (lines 110–166),
restricted to its computational content: generate the grid (errors from
the grid arithmetic propagate before the fetch loop starts), then fold
every point's fetch outcome.  `fetch` abstracts
`call_dataforseo_api(point['lat'], point['lon'], keyword)`. -/
def generate_analysis (cosDeg : ℚ → ℚ) (center_lat center_lon : ℚ)
    (num_points : ℤ) (distance_km : ℚ)
    (fetch : ℚ → ℚ → Option (List Item)) :
    Except PyError (List GridPoint × AggState) :=
  match generate_grid_points cosDeg center_lat center_lon num_points distance_km with
  | .error e => .error e
  | .ok grid_points =>
    .ok (grid_points,
      aggPoints (grid_points.map (fun p => (p.id, fetch p.lat p.lon))) initState)

namespace GBPAnalysisGenerator

/-- One element of the list built by
`GBPAnalysisGenerator.process_api_response` (lines 119–127). -/
structure RankRow where
  business_id : String
  business_name : Option String
  business_address : Option String
  business_rating : Option ℚ
  business_reviews : Option ℤ
  grid_point_id : ℕ
  ranking_position : ℕ
deriving DecidableEq, Repr

/-- The `for index, item in enumerate(items)` loop of
`process_api_response` (lines 114–127), with the `enumerate` index
explicit. -/
def processFrom (point_id : ℕ) : ℕ → List Item → List RankRow
  | _, [] => []
  | index, item :: rest =>
    match derive_id item with
    | none => processFrom point_id (index + 1) rest
    | some biz_id =>
      { business_id := biz_id
        business_name := item.title
        business_address := item.address
        business_rating := item.rating.bind Rating.value
        business_reviews := item.rating.bind Rating.votes_count
        grid_point_id := point_id
        ranking_position := index + 1 } :: processFrom point_id (index + 1) rest

/-- `GBPAnalysisGenerator.process_api_response` (lines 107–129) applied
to the item list already extracted from the payload (an unusable payload
yields the empty list). -/
def process_api_response (items : List Item) (point_id : ℕ) : List RankRow :=
  processFrom point_id 0 items

/-- The `BusinessRecord` stored by `run_analysis` on first sighting
(lines 177–184), built from a processed row. -/
def bizOfRow (row : RankRow) : BusinessRecord :=
  { id := row.business_id
    title := row.business_name
    address := row.business_address
    rating := row.business_rating
    reviews := row.business_reviews }

/-- The fetch loop of `GBPAnalysisGenerator.run_analysis`
(lines 162–200): `call_dataforseo_api` has no exception handler
(line 102–105 `raise_for_status`), so a transport error (`none`)
escapes the loop and aborts the whole run (the outer handler marks the
analysis `failed` and re-raises); a parsed payload is processed and
appended to `all_businesses` / `all_rankings`. -/
def runPoints : List (ℕ × Option (List Item)) →
    List (String × BusinessRecord) → List RankRow →
    Except Unit (List (String × BusinessRecord) × List RankRow)
  | [], all_businesses, all_rankings => .ok (all_businesses, all_rankings)
  | (_, none) :: _, _, _ => .error ()
  | (point_id, some items) :: rest, all_businesses, all_rankings =>
    let businesses := process_api_response items point_id
    runPoints rest
      (businesses.foldl
        (fun d biz =>
          if (dictLookup d biz.business_id).isSome then d
          else dictSet d biz.business_id (bizOfRow biz))
        all_businesses)
      (all_rankings ++ businesses)

/-- The `# Organize rankings by business` loop of `run_analysis`
(lines 222–226): fold the flat `all_rankings` list into the nested
`rankings` dict. -/
def buildRankings (all_rankings : List RankRow) : List (String × List (ℕ × ℕ)) :=
  all_rankings.foldl
    (fun rd ranking =>
      dictSet rd ranking.business_id
        (dictSet ((dictLookup rd ranking.business_id).getD [])
          ranking.grid_point_id ranking.ranking_position))
    []

/-- The aggregation content of `GBPAnalysisGenerator.run_analysis`
(lines 157–226) on the per-point fetch outcomes: run the fetch loop
(aborting on the first transport error) and then organise the rankings
by business. -/
def run_analysis (prs : List (ℕ × Option (List Item))) :
    Except Unit (List (String × BusinessRecord) × List (String × List (ℕ × ℕ))) :=
  match runPoints prs [] [] with
  | .error e => .error e
  | .ok (all_businesses, all_rankings) =>
    .ok (all_businesses, buildRankings all_rankings)

end GBPAnalysisGenerator

/-! ## Specification-side characterisations

Direct (non-stateful) descriptions of what the aggregation fold
computes, proved equal to the folds below. -/

/-- The identifier derived for the entry at index `j` of a result list
(`none` past the end or for entries without a usable identifier). -/
def idAt (items : List Item) (j : ℕ) : Option String :=
  (items.get? j).bind derive_id

/-- The 1-based rank of the LAST entry of `items` whose derived
identifier is `biz_id`, counting positions from `start`
(`start + 0-based index + 1`); `none` if the identifier never occurs. -/
def lastRankFrom (biz_id : String) : ℕ → List Item → Option ℕ
  | _, [] => none
  | start, item :: rest =>
    match lastRankFrom biz_id (start + 1) rest with
    | some r => some r
    | none => if derive_id item = some biz_id then some (start + 1) else none

/-- The rank that a whole run records for `(biz_id, point_id)`: the
value contributed by the LAST list entry carrying `point_id` whose items
mention `biz_id` (later points overwrite earlier ones). -/
def runRank (biz_id : String) (point_id : ℕ) :
    List (ℕ × Option (List Item)) → Option ℕ
  | [] => none
  | (pid, res) :: rest =>
    match runRank biz_id point_id rest with
    | some v => some v
    | none =>
      match res with
      | none => none
      | some items =>
        if pid = point_id then lastRankFrom biz_id 0 items else none

/-- The first provider entry of the run (points in list order, items in
provider order) whose derived identifier is `biz_id`. -/
def firstSight (biz_id : String) : List (ℕ × Option (List Item)) → Option Item
  | [] => none
  | (_, none) :: rest => firstSight biz_id rest
  | (_, some items) :: rest =>
    match items.find? (fun item => decide (derive_id item = some biz_id)) with
    | some item => some item
    | none => firstSight biz_id rest

/-- The rank contributed by one fetch outcome on its own: nothing for a
transport error, else the last matching position. -/
def entryRank (biz_id : String) : Option (List Item) → Option ℕ
  | none => none
  | some items => lastRankFrom biz_id 0 items

namespace GBPAnalysisGenerator

/-- The registry fold performed by `run_analysis` on one processed row
list (lines 173–184). -/
def foldBiz (rows' : List RankRow) (d : List (String × BusinessRecord)) :
    List (String × BusinessRecord) :=
  rows'.foldl
    (fun d biz =>
      if (dictLookup d biz.business_id).isSome then d
      else dictSet d biz.business_id (bizOfRow biz)) d

/-- The nested-rankings fold of lines 222–226, over an arbitrary start
dict. -/
def foldRank (rows' : List RankRow) (rd : List (String × List (ℕ × ℕ))) :
    List (String × List (ℕ × ℕ)) :=
  rows'.foldl
    (fun rd ranking =>
      dictSet rd ranking.business_id
        (dictSet ((dictLookup rd ranking.business_id).getD [])
          ranking.grid_point_id ranking.ranking_position)) rd

/-- All processed rows of a run, in fetch order (transport errors
contribute nothing). -/
def rowsOf : List (ℕ × Option (List Item)) → List RankRow
  | [] => []
  | (_, none) :: rest => rowsOf rest
  | (pid, some items) :: rest => process_api_response items pid ++ rowsOf rest

end GBPAnalysisGenerator

/-- Provider entry with place id `A` and name `X`. -/
def itemA_X : Item :=
  { place_id := some "A", cid := none, title := some "X", address := none, rating := none }

/-- Provider entry with place id `A` and a different (stale) name `Y`. -/
def itemA_Y : Item :=
  { place_id := some "A", cid := none, title := some "Y", address := none, rating := none }

/-- Provider entry with place id `B`. -/
def itemB : Item :=
  { place_id := some "B", cid := none, title := some "Bee", address := none, rating := none }

/-- Provider entry with no usable identifier. -/
def itemNoId : Item :=
  { place_id := none, cid := none, title := some "anon", address := none, rating := none }

/-! ## Dictionary lemmas -/

theorem dictLookup_dictSet_self {α β : Type} [DecidableEq α]
    (d : List (α × β)) (k : α) (v : β) :
    dictLookup (dictSet d k v) k = some v := by
  induction d with
  | nil => simp [dictSet, dictLookup]
  | cons hd tl ih =>
    obtain ⟨k0, v0⟩ := hd
    by_cases h : k0 = k
    · simp [dictSet, h, dictLookup]
    · simp [dictSet, h, dictLookup, ih]

theorem dictLookup_dictSet_ne {α β : Type} [DecidableEq α]
    (d : List (α × β)) (k k' : α) (v : β) (h : k' ≠ k) :
    dictLookup (dictSet d k v) k' = dictLookup d k' := by
  have hk : ¬ k = k' := fun he => h he.symm
  induction d with
  | nil => simp [dictSet, dictLookup, hk]
  | cons hd tl ih =>
    obtain ⟨k0, v0⟩ := hd
    by_cases h0 : k0 = k
    · subst h0
      simp [dictSet, dictLookup, hk]
    · simp [dictSet, h0, dictLookup, ih]

/-- Conditional first-sighting insertion (the `if biz_id not in d` idiom):
the resulting lookup. -/
theorem dictLookup_condSet {β : Type} (d : List (String × β)) (bid b : String) (rec' : β) :
    dictLookup (if (dictLookup d bid).isSome then d else dictSet d bid rec') b =
      if b = bid then some ((dictLookup d bid).getD rec') else dictLookup d b := by
  by_cases hs : (dictLookup d bid).isSome
  · rw [if_pos hs]
    by_cases hb : b = bid
    · subst hb
      obtain ⟨v, hv⟩ := Option.isSome_iff_exists.mp hs
      simp [hv]
    · simp [hb]
  · rw [if_neg hs]
    rw [Option.not_isSome_iff_eq_none] at hs
    by_cases hb : b = bid
    · subst hb
      simp [dictLookup_dictSet_self, hs]
    · simp [hb, dictLookup_dictSet_ne d bid b rec' hb]

/-- Keys of a dict after `d[k] = v`. -/
theorem mem_keys_dictSet {α β : Type} [DecidableEq α]
    (d : List (α × β)) (k a : α) (v : β) :
    a ∈ (dictSet d k v).map Prod.fst ↔ a ∈ d.map Prod.fst ∨ a = k := by
  induction d with
  | nil => simp [dictSet]
  | cons hd tl ih =>
    obtain ⟨k0, v0⟩ := hd
    by_cases h : k0 = k
    · subst h
      simp [dictSet]
      tauto
    · simp [dictSet, h, ih]
      tauto

/-- `d[k] = v` keeps the keys of a dict deduplicated. -/
theorem nodup_keys_dictSet {α β : Type} [DecidableEq α]
    (d : List (α × β)) (k : α) (v : β) (h : (d.map Prod.fst).Nodup) :
    ((dictSet d k v).map Prod.fst).Nodup := by
  induction d with
  | nil => simp [dictSet]
  | cons hd tl ih =>
    obtain ⟨k0, v0⟩ := hd
    simp only [List.map_cons, List.nodup_cons] at h
    by_cases hk : k0 = k
    · subst hk
      simpa [dictSet] using h
    · simp only [dictSet, if_neg hk, List.map_cons, List.nodup_cons]
      refine ⟨?_, ih h.2⟩
      rw [mem_keys_dictSet]
      rintro (hm | rfl)
      · exact h.1 hm
      · exact hk rfl

/-! ## Characterisation of the aggregation fold (flat script) -/

/-- Effect of one `ranking_data[biz_id][point_id] = v` update on
`rankLookup`. -/
theorem rankLookup_step (st : AggState) (bid : String) (pid v : ℕ)
    (bs : List (String × BusinessRecord)) (b : String) (q : ℕ) :
    rankLookup ⟨bs, dictSet st.ranking_data bid
        (dictSet ((dictLookup st.ranking_data bid).getD []) pid v)⟩ b q =
      if b = bid ∧ q = pid then some v else rankLookup st b q := by
  by_cases hb : b = bid
  · subst hb
    by_cases hq : q = pid
    · subst hq
      simp [rankLookup, dictLookup_dictSet_self]
    · simp only [rankLookup, dictLookup_dictSet_self, Option.some_bind]
      rw [dictLookup_dictSet_ne _ _ _ _ hq]
      rw [if_neg (by tauto)]
      cases hrd : dictLookup st.ranking_data b with
      | none => simp [dictLookup]
      | some inner => simp
  · rw [if_neg (by tauto)]
    simp only [rankLookup]
    rw [dictLookup_dictSet_ne _ _ _ _ hb]

/-- `procItems` and the rank mapping: the final value at
`(b, point_id)` is the rank of the last occurrence of `b` in the
remaining items (counting from `index`), everything else is untouched. -/
theorem rank_procItems (pid : ℕ) (items : List Item) :
    ∀ (k : ℕ) (st : AggState) (b : String) (q : ℕ),
    rankLookup (procItems pid k items st) b q =
      match lastRankFrom b k items with
      | some r => if q = pid then some r else rankLookup st b q
      | none => rankLookup st b q := by
  induction items with
  | nil => intro k st b q; simp [procItems, lastRankFrom]
  | cons item rest ih =>
    intro k st b q
    cases hd : derive_id item with
    | none =>
      simp only [procItems, hd]
      rw [ih]
      cases hr : lastRankFrom b (k + 1) rest <;> simp [lastRankFrom, hr, hd]
    | some bid =>
      simp only [procItems, hd]
      rw [ih]
      have hstep := rankLookup_step st bid pid (k + 1)
        (if (dictLookup st.all_businesses bid).isSome then st.all_businesses
         else dictSet st.all_businesses bid (mkBusiness bid item)) b q
      cases hr : lastRankFrom b (k + 1) rest with
      | some r =>
        simp only [lastRankFrom, hr]
        by_cases hq : q = pid
        · simp [hq]
        · simp [hstep, hq]
      | none =>
        by_cases hb : b = bid
        · subst hb
          simp only [lastRankFrom, hr, hd, hstep]
          by_cases hq : q = pid <;> simp [hq]
        · have hsome : ¬ (some bid = some b) := by
            intro h; exact hb (Option.some.inj h).symm
          simp only [lastRankFrom, hr, hd]
          simp [hstep, hb, hsome]

/-- Whole-run rank characterisation: the mapping recorded by the fetch
loop is described pointwise by `runRank`. -/
theorem rank_aggPoints (prs : List (ℕ × Option (List Item))) :
    ∀ (st : AggState) (b : String) (q : ℕ),
    rankLookup (aggPoints prs st) b q =
      match runRank b q prs with
      | some v => some v
      | none => rankLookup st b q := by
  induction prs with
  | nil => intro st b q; simp [aggPoints, runRank]
  | cons hd rest ih =>
    intro st b q
    obtain ⟨pid, res⟩ := hd
    cases res with
    | none =>
      simp only [aggPoints]
      rw [ih]
      cases hr : runRank b q rest <;> simp [runRank, hr]
    | some items =>
      simp only [aggPoints]
      rw [ih, rank_procItems]
      cases hr : runRank b q rest with
      | some v => simp [runRank, hr]
      | none =>
        simp only [runRank, hr]
        by_cases hq : pid = q
        · subst hq
          cases hl : lastRankFrom b 0 items <;> simp [hl]
        · have hq' : ¬ q = pid := fun h => hq h.symm
          cases hl : lastRankFrom b 0 items <;> simp [hl, hq, hq']

/-- On the empty initial state the rank mapping IS `runRank`. -/
theorem rankLookup_aggPoints_init (prs : List (ℕ × Option (List Item)))
    (b : String) (q : ℕ) :
    rankLookup (aggPoints prs initState) b q = runRank b q prs := by
  rw [rank_aggPoints]
  cases hr : runRank b q prs <;> simp [initState, rankLookup, dictLookup]

/-- A point id absent from the run never acquires a rank entry. -/
theorem runRank_not_mem (b : String) (q : ℕ)
    (prs : List (ℕ × Option (List Item))) (h : q ∉ prs.map Prod.fst) :
    runRank b q prs = none := by
  induction prs with
  | nil => simp [runRank]
  | cons hd rest ih =>
    obtain ⟨pid, res⟩ := hd
    simp only [List.map_cons, List.mem_cons] at h
    push_neg at h
    have hpid : ¬ pid = q := fun he => h.1 he.symm
    simp only [runRank]
    rw [ih h.2]
    cases res with
    | none => rfl
    | some items => simp [hpid]

/-- With deduplicated point ids, the rank recorded for `(b, q)` is
determined by the unique list entry carrying `q`. -/
theorem runRank_mem (b : String) (q : ℕ) (r : Option (List Item))
    (prs : List (ℕ × Option (List Item)))
    (hnd : (prs.map Prod.fst).Nodup) (hm : (q, r) ∈ prs) :
    runRank b q prs = entryRank b r := by
  induction prs with
  | nil => simp at hm
  | cons hd rest ih =>
    obtain ⟨pid, res⟩ := hd
    simp only [List.map_cons, List.nodup_cons] at hnd
    rcases List.mem_cons.mp hm with heq | hm'
    · rw [Prod.mk.injEq] at heq
      obtain ⟨rfl, rfl⟩ := heq
      have hnone : runRank b q rest = none :=
        runRank_not_mem b q rest hnd.1
      simp only [runRank]
      rw [hnone]
      cases r with
      | none => rfl
      | some items => simp [entryRank]
    · have hq : ¬ pid = q := by
        intro he
        subst he
        exact hnd.1 (List.mem_map_of_mem Prod.fst hm')
      simp only [runRank]
      rw [ih hnd.2 hm']
      cases her : entryRank b r with
      | some v => simp
      | none =>
        cases res with
        | none => rfl
        | some items2 => simp [hq]

/-- `procItems` and the business registry: an already-present record is
never overwritten, and an absent identifier is created from the first
matching entry of the item list. -/
theorem biz_procItems (pid : ℕ) (items : List Item) :
    ∀ (k : ℕ) (st : AggState) (b : String),
    dictLookup (procItems pid k items st).all_businesses b =
      match dictLookup st.all_businesses b with
      | some r => some r
      | none =>
        (items.find? (fun item => decide (derive_id item = some b))).map (mkBusiness b) := by
  induction items with
  | nil =>
    intro k st b
    cases h : dictLookup st.all_businesses b <;> simp [procItems, h]
  | cons item rest ih =>
    intro k st b
    cases hd : derive_id item with
    | none =>
      have hfind : List.find? (fun item => decide (derive_id item = some b)) (item :: rest)
          = List.find? (fun item => decide (derive_id item = some b)) rest := by
        rw [List.find?_cons]
        rw [hd]
        simp
      simp only [procItems, hd]
      rw [ih, hfind]
    | some bid =>
      simp only [procItems, hd]
      rw [ih]
      by_cases hb : b = bid
      · subst hb
        have hfind : List.find? (fun item => decide (derive_id item = some b)) (item :: rest)
            = some item := by
          rw [List.find?_cons]
          rw [hd]
          simp
        rw [hfind]
        simp only [dictLookup_condSet, if_pos rfl]
        cases h : dictLookup st.all_businesses b <;> simp [h]
      · have hfind : List.find? (fun item => decide (derive_id item = some b)) (item :: rest)
            = List.find? (fun item => decide (derive_id item = some b)) rest := by
          rw [List.find?_cons]
          rw [hd]
          have hb' : ¬ bid = b := fun h => hb h.symm
          simp [hb']
        rw [hfind]
        simp only [dictLookup_condSet, if_neg hb]

/-- Whole-run registry characterisation: the record stored for an
identifier comes from the first sighting of that identifier across the
run (points in processing order, items in provider order). -/
theorem biz_aggPoints (prs : List (ℕ × Option (List Item))) :
    ∀ (st : AggState) (b : String),
    dictLookup (aggPoints prs st).all_businesses b =
      match dictLookup st.all_businesses b with
      | some r => some r
      | none => (firstSight b prs).map (mkBusiness b) := by
  induction prs with
  | nil =>
    intro st b
    cases h : dictLookup st.all_businesses b <;> simp [aggPoints, firstSight, h]
  | cons hd rest ih =>
    obtain ⟨pid, res⟩ := hd
    intro st b
    cases res with
    | none =>
      simp only [aggPoints]
      rw [ih]
      simp only [firstSight]
    | some items =>
      simp only [aggPoints]
      rw [ih, biz_procItems]
      simp only [firstSight]
      cases hf : items.find? (fun item => decide (derive_id item = some b)) with
      | some item => cases h : dictLookup st.all_businesses b <;> simp [h, hf]
      | none => cases h : dictLookup st.all_businesses b <;> simp [h, hf]

/-- On the empty initial state the registry lookup IS the first
sighting. -/
theorem bizLookup_aggPoints_init (prs : List (ℕ × Option (List Item))) (b : String) :
    dictLookup (aggPoints prs initState).all_businesses b =
      (firstSight b prs).map (mkBusiness b) := by
  rw [biz_aggPoints]
  simp [initState, dictLookup]

/-! ## Index lemmas for `lastRankFrom` and `find?` -/

theorem idAt_cons_zero (item : Item) (rest : List Item) :
    idAt (item :: rest) 0 = derive_id item := by
  simp [idAt]

theorem idAt_cons_succ (item : Item) (rest : List Item) (j : ℕ) :
    idAt (item :: rest) (j + 1) = idAt rest j := by
  simp [idAt]

/-- If no index of `items` derives `b`, `lastRankFrom` finds nothing. -/
theorem lastRankFrom_eq_none (b : String) (items : List Item)
    (h : ∀ j, j < items.length → idAt items j ≠ some b) :
    ∀ s, lastRankFrom b s items = none := by
  induction items with
  | nil => intro s; simp [lastRankFrom]
  | cons item rest ih =>
    intro s
    have h0 : derive_id item ≠ some b := by
      have := h 0 (by simp)
      rwa [idAt_cons_zero] at this
    have hrest : ∀ j, j < rest.length → idAt rest j ≠ some b := by
      intro j hj
      have := h (j + 1) (by simpa using Nat.succ_lt_succ hj)
      rwa [idAt_cons_succ] at this
    rw [lastRankFrom, ih hrest (s + 1)]
    simp [h0]

/-- If index `k` derives `b` and no later index does, `lastRankFrom`
returns `start + k + 1`. -/
theorem lastRankFrom_last (b : String) (items : List Item) (k : ℕ) (it : Item)
    (hk : items.get? k = some it) (hb : derive_id it = some b)
    (hlast : ∀ j, j < items.length → k < j → idAt items j ≠ some b) :
    ∀ s, lastRankFrom b s items = some (s + k + 1) := by
  induction items generalizing k with
  | nil => simp at hk
  | cons item rest ih =>
    intro s
    cases k with
    | zero =>
      have hit : item = it := by simpa using hk
      subst hit
      have hrest : ∀ j, j < rest.length → idAt rest j ≠ some b := by
        intro j hj
        have := hlast (j + 1) (by simpa using Nat.succ_lt_succ hj) (Nat.succ_pos j)
        rwa [idAt_cons_succ] at this
      rw [lastRankFrom, lastRankFrom_eq_none b rest hrest (s + 1)]
      simp [hb]
    | succ k0 =>
      have hk0 : rest.get? k0 = some it := by simpa using hk
      have hlast0 : ∀ j, j < rest.length → k0 < j → idAt rest j ≠ some b := by
        intro j hj hkj
        have := hlast (j + 1) (by simpa using Nat.succ_lt_succ hj) (Nat.succ_lt_succ hkj)
        rwa [idAt_cons_succ] at this
      rw [lastRankFrom, ih k0 hk0 hlast0 (s + 1)]
      have : s + 1 + k0 + 1 = s + (k0 + 1) + 1 := by omega
      rw [this]

/-- A successful `lastRankFrom` exhibits a matching entry. -/
theorem lastRankFrom_some_mem (b : String) (items : List Item) :
    ∀ s r, lastRankFrom b s items = some r →
    ∃ it ∈ items, derive_id it = some b := by
  induction items with
  | nil => intro s r h; simp [lastRankFrom] at h
  | cons item rest ih =>
    intro s r h
    rw [lastRankFrom] at h
    cases hr : lastRankFrom b (s + 1) rest with
    | some v =>
      obtain ⟨it, hmem, hd⟩ := ih (s + 1) v hr
      exact ⟨it, List.mem_cons_of_mem item hmem, hd⟩
    | none =>
      rw [hr] at h
      by_cases hd : derive_id item = some b
      · exact ⟨item, List.mem_cons_self item rest, hd⟩
      · simp [hd] at h

/-- If index `k` derives `b` and no earlier index does, `find?` returns
the entry at `k`. -/
theorem find_first (b : String) (items : List Item) (k : ℕ) (it : Item)
    (hk : items.get? k = some it) (hb : derive_id it = some b)
    (hfirst : ∀ j, j < k → idAt items j ≠ some b) :
    items.find? (fun x => decide (derive_id x = some b)) = some it := by
  induction items generalizing k with
  | nil => simp at hk
  | cons item rest ih =>
    cases k with
    | zero =>
      have hit : item = it := by simpa using hk
      subst hit
      rw [List.find?_cons]
      rw [hb]
      simp
    | succ k0 =>
      have hk0 : rest.get? k0 = some it := by simpa using hk
      have h0 : derive_id item ≠ some b := by
        have := hfirst 0 (Nat.succ_pos k0)
        rwa [idAt_cons_zero] at this
      have hfirst0 : ∀ j, j < k0 → idAt rest j ≠ some b := by
        intro j hj
        have := hfirst (j + 1) (Nat.succ_lt_succ hj)
        rwa [idAt_cons_succ] at this
      rw [List.find?_cons]
      have hp : decide (derive_id item = some b) = false := decide_eq_false h0
      rw [hp]
      exact ih k0 hk0 hfirst0

/-- A successful `find?` on the identifier predicate exhibits a matching
entry (specialised membership form). -/
theorem find_some_mem (b : String) (items : List Item) (it : Item)
    (h : items.find? (fun x => decide (derive_id x = some b)) = some it) :
    it ∈ items ∧ derive_id it = some b := by
  refine ⟨List.mem_of_find?_eq_some h, ?_⟩
  have := List.find?_some h
  simpa using this

/-- A successful `firstSight` exhibits a run entry containing a matching
provider item. -/
theorem firstSight_some (b : String) (prs : List (ℕ × Option (List Item))) (it : Item)
    (h : firstSight b prs = some it) :
    ∃ pid items, (pid, some items) ∈ prs ∧ it ∈ items ∧ derive_id it = some b := by
  induction prs with
  | nil => simp [firstSight] at h
  | cons hd rest ih =>
    obtain ⟨pid, res⟩ := hd
    cases res with
    | none =>
      rw [firstSight] at h
      obtain ⟨pid2, items2, hmem, hin, hd2⟩ := ih h
      exact ⟨pid2, items2, List.mem_cons_of_mem _ hmem, hin, hd2⟩
    | some items =>
      rw [firstSight] at h
      cases hf : items.find? (fun x => decide (derive_id x = some b)) with
      | some it0 =>
        rw [hf] at h
        have heq : it0 = it := Option.some.inj h
        obtain ⟨hin, hd0⟩ := find_some_mem b items it0 hf
        rw [heq] at hin hd0
        exact ⟨pid, items, List.mem_cons_self _ _, hin, hd0⟩
      | none =>
        rw [hf] at h
        obtain ⟨pid2, items2, hmem, hin, hd2⟩ := ih h
        exact ⟨pid2, items2, List.mem_cons_of_mem _ hmem, hin, hd2⟩

/-- A recorded rank exhibits a run entry containing a matching provider
item. -/
theorem runRank_some (b : String) (q : ℕ) (prs : List (ℕ × Option (List Item))) :
    ∀ v, runRank b q prs = some v →
    ∃ pid items it, (pid, some items) ∈ prs ∧ it ∈ items ∧ derive_id it = some b := by
  induction prs with
  | nil => intro v h; simp [runRank] at h
  | cons hd rest ih =>
    obtain ⟨pid, res⟩ := hd
    intro v h
    simp only [runRank] at h
    cases hr : runRank b q rest with
    | some w =>
      obtain ⟨pid2, items2, it, hmem, hin, hd2⟩ := ih w hr
      exact ⟨pid2, items2, it, List.mem_cons_of_mem _ hmem, hin, hd2⟩
    | none =>
      rw [hr] at h
      cases res with
      | none => exact Option.noConfusion h
      | some items =>
        have h' : (if pid = q then lastRankFrom b 0 items else none) = some v := h
        by_cases hq : pid = q
        · rw [if_pos hq] at h'
          obtain ⟨it, hin, hd0⟩ := lastRankFrom_some_mem b items 0 v h'
          exact ⟨pid, items, it, List.mem_cons_self _ _, hin, hd0⟩
        · rw [if_neg hq] at h'
          exact Option.noConfusion h'

/-- A sighted identifier makes `firstSight` succeed. -/
theorem firstSight_of_mem (b : String) (prs : List (ℕ × Option (List Item)))
    (pid : ℕ) (items : List Item) (it : Item)
    (hmem : (pid, some items) ∈ prs) (hin : it ∈ items)
    (hd : derive_id it = some b) :
    (firstSight b prs).isSome = true := by
  induction prs with
  | nil => simp at hmem
  | cons hd0 rest ih =>
    obtain ⟨pid0, res0⟩ := hd0
    rcases List.mem_cons.mp hmem with heq | hmem'
    · rw [Prod.mk.injEq] at heq
      obtain ⟨rfl, heq2⟩ := heq
      rw [← heq2]
      simp only [firstSight]
      cases hf : items.find? (fun x => decide (derive_id x = some b)) with
      | some it0 => simp
      | none =>
        exfalso
        have hall : ∀ x ∈ items, ¬ ((fun x => decide (derive_id x = some b)) x = true) :=
          List.find?_eq_none.mp hf
        have hit := hall it hin
        simp only [decide_eq_true_eq] at hit
        exact hit hd
    · have := ih hmem'
      cases res0 with
      | none => simp only [firstSight]; exact this
      | some items0 =>
        simp only [firstSight]
        cases hf : items0.find? (fun x => decide (derive_id x = some b)) with
        | some it0 => simp
        | none => exact this

/-! ## Registry key dedup invariant -/

theorem nodup_keys_procItems (pid : ℕ) (items : List Item) :
    ∀ (k : ℕ) (st : AggState),
    (st.all_businesses.map Prod.fst).Nodup →
    ((procItems pid k items st).all_businesses.map Prod.fst).Nodup := by
  induction items with
  | nil => intro k st h; simpa [procItems] using h
  | cons item rest ih =>
    intro k st h
    cases hd : derive_id item with
    | none =>
      simp only [procItems, hd]
      exact ih _ _ h
    | some bid =>
      simp only [procItems, hd]
      apply ih
      by_cases hs : (dictLookup st.all_businesses bid).isSome = true
      · simpa [hs] using h
      · simp only [hs, if_false]
        exact nodup_keys_dictSet _ _ _ h

theorem nodup_keys_aggPoints (prs : List (ℕ × Option (List Item))) :
    ∀ st, (st.all_businesses.map Prod.fst).Nodup →
    ((aggPoints prs st).all_businesses.map Prod.fst).Nodup := by
  induction prs with
  | nil => intro st h; simpa [aggPoints] using h
  | cons hd rest ih =>
    obtain ⟨pid, res⟩ := hd
    intro st h
    cases res with
    | none => simp only [aggPoints]; exact ih _ h
    | some items =>
      simp only [aggPoints]
      exact ih _ (nodup_keys_procItems pid items 0 st h)

/-! ## Grid loop characterisation -/

/-- `innerLoop` over `range' j0 m` starting at counter `c` emits the
cells for counters `c, c+1, ...` until the row or the budget runs out. -/
theorem innerLoop_spec (mk : ℕ → ℕ → ℕ → GridPoint) (i n : ℕ) :
    ∀ (m j0 c : ℕ),
    innerLoop mk i n (List.range' j0 m) c =
      ((List.range' c (min m (n - c))).map (fun pc => mk i (pc + j0 - c) pc),
       c + min m (n - c)) := by
  intro m
  induction m with
  | zero => intro j0 c; simp [List.range', innerLoop]
  | succ m0 ih =>
    intro j0 c
    rw [List.range'_succ]
    by_cases hc : n ≤ c
    · have h1 : min (m0 + 1) (n - c) = 0 := by omega
      simp only [innerLoop, if_pos hc]
      simp [h1, List.range']
    · simp only [innerLoop, if_neg hc]
      rw [ih (j0 + 1) (c + 1)]
      have h1 : min (m0 + 1) (n - c) = min m0 (n - (c + 1)) + 1 := by omega
      rw [h1, List.range'_succ]
      have hf : (fun pc => mk i (pc + (j0 + 1) - (c + 1)) pc)
          = (fun pc => mk i (pc + j0 - c) pc) := by
        funext pc
        have harith : pc + (j0 + 1) - (c + 1) = pc + j0 - c := by omega
        rw [harith]
      have hj : c + j0 - c = j0 := by omega
      simp only [List.map_cons, hf, hj, Prod.mk.injEq]
      exact ⟨trivial, by omega⟩

/-- Once the budget is exhausted the outer loop emits nothing. -/
theorem outerLoop_stop (mk : ℕ → ℕ → ℕ → GridPoint) (cols n : ℕ)
    (is : List ℕ) (c : ℕ) (h : n ≤ c) : outerLoop mk cols n is c = [] := by
  cases is with
  | nil => rfl
  | cons i is0 => simp only [outerLoop, if_pos h]

/-- Row-major cell arithmetic: inside row `i` the counter decomposes as
`pc = i * cols + j`. -/
theorem cell_div_mod (i cols pc : ℕ)
    (h1 : i * cols ≤ pc) (h2 : pc < i * cols + cols) :
    pc / cols = i ∧ pc % cols = pc - i * cols := by
  obtain ⟨d, rfl⟩ : ∃ d, pc = d + i * cols := ⟨pc - i * cols, by omega⟩
  have hcols : 0 < cols := by omega
  have hd : d < cols := by omega
  rw [Nat.add_mul_div_right d i hcols, Nat.add_mul_mod_self_right,
    Nat.div_eq_of_lt hd, Nat.mod_eq_of_lt hd]
  omega

theorem range'_add_append (s a b : ℕ) :
    List.range' s (a + b) = List.range' s a ++ List.range' (s + a) b := by
  induction a generalizing s with
  | zero => simp [List.range']
  | succ a0 ih =>
    have h1 : a0 + 1 + b = (a0 + b) + 1 := by omega
    rw [h1, List.range'_succ, List.range'_succ, ih (s + 1), List.cons_append]
    have h2 : s + 1 + a0 = s + (a0 + 1) := by omega
    rw [h2]

/-- The outer loop, entered at the start of row `i` (counter `i * cols`),
emits the row-major cells `pc = i*cols, i*cols+1, ...` (cell
`(pc / cols, pc % cols)`) until either the rows or the point budget run
out — the latter possibly mid-row. -/
theorem outerLoop_spec (mk : ℕ → ℕ → ℕ → GridPoint) (cols n : ℕ) :
    ∀ (r i : ℕ),
    outerLoop mk cols n (List.range' i r) (i * cols) =
      (List.range' (i * cols) (min (r * cols) (n - i * cols))).map
        (fun pc => mk (pc / cols) (pc % cols) pc) := by
  intro r
  induction r with
  | zero => intro i; simp [List.range', outerLoop]
  | succ r0 ih =>
    intro i
    rw [List.range'_succ]
    by_cases hc : n ≤ i * cols
    · rw [outerLoop_stop mk cols n _ _ hc]
      have h1 : min ((r0 + 1) * cols) (n - i * cols) = 0 := by omega
      rw [h1]
      simp [List.range']
    · simp only [outerLoop, if_neg hc]
      rw [List.range_eq_range', innerLoop_spec mk i n cols 0 (i * cols)]
      have hchunk : ∀ t, t ≤ cols →
          (List.range' (i * cols) t).map (fun pc => mk i (pc + 0 - i * cols) pc)
            = (List.range' (i * cols) t).map (fun pc => mk (pc / cols) (pc % cols) pc) := by
        intro t ht
        apply List.map_congr_left
        intro pc hpc
        rw [List.mem_range'_1] at hpc
        obtain ⟨hdm1, hdm2⟩ := cell_div_mod i cols pc hpc.1 (by omega)
        rw [hdm1, hdm2]
        have : pc + 0 - i * cols = pc - i * cols := by omega
        rw [this]
      by_cases hpart : n - i * cols ≤ cols
      · have ht : min cols (n - i * cols) = n - i * cols := by omega
        have harg : i * cols + (n - i * cols) = n := by omega
        have hcc : cols ≤ (r0 + 1) * cols := Nat.le_mul_of_pos_left cols (Nat.succ_pos r0)
        have hmin : min ((r0 + 1) * cols) (n - i * cols) = n - i * cols := by omega
        rw [ht, harg, outerLoop_stop mk cols n _ _ (le_refl n), List.append_nil, hmin]
        exact hchunk (n - i * cols) (by omega)
      · have ht : min cols (n - i * cols) = cols := by omega
        have hsucc : (i + 1) * cols = i * cols + cols := by ring
        have hrsucc : (r0 + 1) * cols = r0 * cols + cols := by ring
        have hmin : min ((r0 + 1) * cols) (n - i * cols)
            = cols + min (r0 * cols) (n - (i + 1) * cols) := by omega
        rw [ht, hmin, range'_add_append, List.map_append]
        have harg : i * cols + cols = (i + 1) * cols := by ring
        rw [harg, ih (i + 1)]
        rw [hchunk cols (le_refl cols)]

/-! ## Grid dimension facts -/

/-- `rows * cols` covers the requested count. -/
theorem rows_mul_cols_ge (n' r : ℕ) (hr : 0 < r) (hn : 0 < n') :
    n' ≤ r * ((n' + r - 1) / r) := by
  have h1 : n' + r - 1 = (n' - 1) + r := by omega
  rw [h1, Nat.add_div_right _ hr]
  have h2 := Nat.div_add_mod (n' - 1) r
  have h3 : (n' - 1) % r < r := Nat.mod_lt _ hr
  have h4 : r * ((n' - 1) / r + 1) = r * ((n' - 1) / r) + r := by ring
  omega

/-- On a positive count the dimension computation succeeds with
`rows = ⌊√n⌋` and `cols = ⌈n / rows⌉` (natural-number form). -/
theorem calculate_grid_dimensions_pos (num_points : ℤ) (h : 1 ≤ num_points) :
    calculate_grid_dimensions num_points =
      .ok (Nat.sqrt num_points.toNat,
        (num_points.toNat + Nat.sqrt num_points.toNat - 1) / Nat.sqrt num_points.toNat) := by
  have h0 : ¬ num_points < 0 := by omega
  have h1 : 0 < num_points.toNat := by omega
  have h2 : ¬ Nat.sqrt num_points.toNat = 0 := by
    have := Nat.sqrt_pos.mpr h1
    omega
  simp only [calculate_grid_dimensions, if_neg h0, if_neg h2]

/-! ## Grid generation: closed form (claim C1 support) -/

/-- Closed form of `generate_grid_points` for a positive count: exactly
`num_points` points, ids `0..n-1`, cell `(pc / cols, pc % cols)` for the
`pc`-th point (row-major, stopping mid-row when the budget is hit), with
both coordinates rounded to six decimals. -/
theorem generate_grid_points_spec (cosDeg : ℚ → ℚ) (center_lat center_lon : ℚ)
    (num_points : ℤ) (distance_km : ℚ) (rows cols : ℕ)
    (h1 : 1 ≤ num_points)
    (hd : calculate_grid_dimensions num_points = .ok (rows, cols)) :
    generate_grid_points cosDeg center_lat center_lon num_points distance_km =
      .ok ((List.range num_points.toNat).map (fun pc =>
        { id := pc
          lat := round6 (center_lat
            + (-((rows : ℚ) - 1) / 2 + ((pc / cols : ℕ) : ℚ)) * (distance_km / 111))
          lon := round6 (center_lon
            + (-((cols : ℚ) - 1) / 2 + ((pc % cols : ℕ) : ℚ)) * (distance_km / 111)
              / cosDeg center_lat) })) := by
  have heq := calculate_grid_dimensions_pos num_points h1
  rw [hd] at heq
  have heq2 := Except.ok.inj heq
  rw [Prod.mk.injEq] at heq2
  obtain ⟨hrows, hcols⟩ := heq2
  have hn : 0 < num_points.toNat := by omega
  have hr1 : 0 < rows := by rw [hrows]; exact Nat.sqrt_pos.mpr hn
  have hcover : num_points.toNat ≤ rows * cols := by
    rw [hrows, hcols]
    exact rows_mul_cols_ge num_points.toNat (Nat.sqrt num_points.toNat)
      (Nat.sqrt_pos.mpr hn) hn
  simp only [generate_grid_points, hd]
  have hs := outerLoop_spec (fun i j point_count =>
    { id := point_count
      lat := round6 (center_lat + (-((rows : ℚ) - 1) / 2 + (i : ℚ)) * (distance_km / 111))
      lon := round6 (center_lon + (-((cols : ℚ) - 1) / 2 + (j : ℚ)) * (distance_km / 111)
        / cosDeg center_lat) }) cols num_points.toNat rows 0
  simp only [Nat.zero_mul, Nat.sub_zero] at hs
  have hmin : min (rows * cols) num_points.toNat = num_points.toNat :=
    min_eq_right hcover
  rw [hmin] at hs
  rw [List.range_eq_range']
  rw [hs]
  rw [← List.range_eq_range']

namespace GBPAnalysisGenerator

/-! ## Equivalence of `run_analysis` with the flat-script aggregation -/

theorem foldBiz_append (r1 r2 : List RankRow) (d : List (String × BusinessRecord)) :
    foldBiz (r1 ++ r2) d = foldBiz r2 (foldBiz r1 d) := by
  simp [foldBiz, List.foldl_append]

theorem foldRank_append (r1 r2 : List RankRow) (rd : List (String × List (ℕ × ℕ))) :
    foldRank (r1 ++ r2) rd = foldRank r2 (foldRank r1 rd) := by
  simp [foldRank, List.foldl_append]

theorem buildRankings_eq_foldRank (ar : List RankRow) :
    buildRankings ar = foldRank ar [] := rfl

/-- One point of the flat script's aggregation equals the row-based
folds of the class implementation. -/
theorem procItems_eq_rows (pid : ℕ) (items : List Item) :
    ∀ (k : ℕ) (ab : List (String × BusinessRecord))
      (rd : List (String × List (ℕ × ℕ))),
    procItems pid k items ⟨ab, rd⟩ =
      ⟨foldBiz (processFrom pid k items) ab, foldRank (processFrom pid k items) rd⟩ := by
  induction items with
  | nil => intro k ab rd; simp [procItems, processFrom, foldBiz, foldRank]
  | cons item rest ih =>
    intro k ab rd
    cases hd : derive_id item with
    | none =>
      simp only [procItems, processFrom, hd]
      exact ih _ _ _
    | some bid =>
      simp only [procItems, processFrom, hd]
      rw [ih]
      simp only [foldBiz, foldRank, List.foldl_cons]
      rfl

/-- The whole flat-script fold equals the row-based folds. -/
theorem aggPoints_eq_folds (prs : List (ℕ × Option (List Item))) :
    ∀ (ab : List (String × BusinessRecord)) (rd : List (String × List (ℕ × ℕ))),
    aggPoints prs ⟨ab, rd⟩ = ⟨foldBiz (rowsOf prs) ab, foldRank (rowsOf prs) rd⟩ := by
  induction prs with
  | nil => intro ab rd; simp [aggPoints, rowsOf, foldBiz, foldRank]
  | cons hd rest ih =>
    obtain ⟨pid, res⟩ := hd
    intro ab rd
    cases res with
    | none =>
      simp only [aggPoints, rowsOf]
      exact ih _ _
    | some items =>
      simp only [aggPoints, rowsOf]
      rw [procItems_eq_rows, ih, foldBiz_append, foldRank_append]
      rfl

/-- In a failure-free run, the fetch loop of `run_analysis` succeeds and
its accumulators are the row folds. -/
theorem runPoints_ok (prs : List (ℕ × Option (List Item))) :
    (∀ e ∈ prs, e.2 ≠ none) →
    ∀ (ab : List (String × BusinessRecord)) (ar : List RankRow),
    runPoints prs ab ar = .ok (foldBiz (rowsOf prs) ab, ar ++ rowsOf prs) := by
  induction prs with
  | nil => intro h ab ar; simp [runPoints, rowsOf, foldBiz]
  | cons hd rest ih =>
    obtain ⟨pid, res⟩ := hd
    intro h ab ar
    cases res with
    | none =>
      exact absurd rfl (h (pid, none) (List.mem_cons_self _ _))
    | some items =>
      have hrest : ∀ e ∈ rest, e.2 ≠ none := fun e he => h e (List.mem_cons_of_mem _ he)
      simp only [runPoints]
      rw [ih hrest]
      simp only [rowsOf, foldBiz_append, List.append_assoc]
      rfl

/-- In a failure-free run, `run_analysis` computes exactly the
registry and the nested rank mapping of the flat script's
`generate_analysis` loop. -/
theorem run_analysis_ok (prs : List (ℕ × Option (List Item)))
    (h : ∀ e ∈ prs, e.2 ≠ none) :
    run_analysis prs =
      .ok ((aggPoints prs initState).all_businesses,
        (aggPoints prs initState).ranking_data) := by
  have hinit : initState = (⟨[], []⟩ : AggState) := rfl
  rw [run_analysis, runPoints_ok prs h [] []]
  rw [hinit, aggPoints_eq_folds]
  simp only [List.nil_append]
  rw [buildRankings_eq_foldRank]

/-- Skipping an empty payload leaves the loop state unchanged
(`process_api_response` yields no rows). -/
theorem runPoints_skip_empty (pid : ℕ) (post : List (ℕ × Option (List Item))) :
    ∀ (pre : List (ℕ × Option (List Item))) ab ar,
    runPoints (pre ++ (pid, some []) :: post) ab ar = runPoints (pre ++ post) ab ar := by
  intro pre
  induction pre with
  | nil =>
    intro ab ar
    simp only [List.nil_append, runPoints]
    simp [process_api_response, processFrom]
  | cons hd rest ih =>
    obtain ⟨p, r⟩ := hd
    intro ab ar
    cases r with
    | none => simp only [List.cons_append, runPoints]
    | some items =>
      simp only [List.cons_append, runPoints]
      exact ih _ _

/-- An unusable-but-parsed payload is skipped by `run_analysis`. -/
theorem run_analysis_skip_empty (pid : ℕ)
    (pre post : List (ℕ × Option (List Item))) :
    run_analysis (pre ++ (pid, some []) :: post) = run_analysis (pre ++ post) := by
  unfold run_analysis
  rw [runPoints_skip_empty]

/-- A transport error at the next pending point aborts the whole class
run (`raise_for_status` has no handler in the fetch loop). -/
theorem run_analysis_abort (pid : ℕ) (rest : List (ℕ × Option (List Item))) :
    run_analysis ((pid, none) :: rest) = .error () := rfl

end GBPAnalysisGenerator

/-- A failed fetch (`None`) is skipped by the flat script's loop. -/
theorem aggPoints_skip_none (pid : ℕ) (post : List (ℕ × Option (List Item))) :
    ∀ (pre : List (ℕ × Option (List Item))) (st : AggState),
    aggPoints (pre ++ (pid, none) :: post) st = aggPoints (pre ++ post) st := by
  intro pre
  induction pre with
  | nil => intro st; simp only [List.nil_append, aggPoints]
  | cons hd rest ih =>
    obtain ⟨p, r⟩ := hd
    intro st
    cases r with
    | none =>
      simp only [List.cons_append, aggPoints]
      exact ih _
    | some items =>
      simp only [List.cons_append, aggPoints]
      exact ih _

/-- An empty item list is skipped by the flat script's loop. -/
theorem aggPoints_skip_empty (pid : ℕ) (post : List (ℕ × Option (List Item))) :
    ∀ (pre : List (ℕ × Option (List Item))) (st : AggState),
    aggPoints (pre ++ (pid, some []) :: post) st = aggPoints (pre ++ post) st := by
  intro pre
  induction pre with
  | nil => intro st; simp only [List.nil_append, aggPoints, procItems]
  | cons hd rest ih =>
    obtain ⟨p, r⟩ := hd
    intro st
    cases r with
    | none =>
      simp only [List.cons_append, aggPoints]
      exact ih _
    | some items =>
      simp only [List.cons_append, aggPoints]
      exact ih _

/-- The two grid generators compute the same function (under the shared
exact-arithmetic model, the only differences are the inlined
`calculate_offset` and the spelling of the cosine argument). -/
theorem generate_grid_points_eq_flat (cosDeg : ℚ → ℚ) (center_lat center_lon : ℚ)
    (num_points : ℤ) (distance_km : ℚ) :
    GBPAnalysisGenerator.generate_grid_points cosDeg center_lat center_lon
        num_points distance_km =
      generate_grid_points cosDeg center_lat center_lon num_points distance_km := rfl

/-- Characterisation of `Nat.sqrt` used to evaluate it at literals. -/
theorem nat_sqrt_eq (n q : ℕ) (h1 : q * q ≤ n) (h2 : n < (q + 1) * (q + 1)) :
    Nat.sqrt n = q := by
  have ha := Nat.le_sqrt.mpr h1
  have hb := Nat.sqrt_lt.mpr h2
  omega

theorem calc_dims_5 : calculate_grid_dimensions 5 = .ok (2, 3) := by
  have h5 : Nat.sqrt 5 = 2 := nat_sqrt_eq 5 2 (by decide) (by decide)
  simp [calculate_grid_dimensions, h5]

theorem calc_dims_0 : calculate_grid_dimensions 0 = .error .zeroDivisionError := by
  simp [calculate_grid_dimensions, Nat.sqrt_zero]

theorem calc_dims_neg1 : calculate_grid_dimensions (-1) = .error .valueError := by
  simp [calculate_grid_dimensions]

theorem calc_dims_9 : calculate_grid_dimensions 9 = .ok (3, 3) := by
  have h : Nat.sqrt 9 = 3 := nat_sqrt_eq 9 3 (by decide) (by decide)
  simp [calculate_grid_dimensions, h]

theorem calc_dims_10 : calculate_grid_dimensions 10 = .ok (3, 4) := by
  have h : Nat.sqrt 10 = 3 := nat_sqrt_eq 10 3 (by decide) (by decide)
  simp [calculate_grid_dimensions, h]

theorem calc_dims_2 : calculate_grid_dimensions 2 = .ok (1, 2) := by
  have h : Nat.sqrt 2 = 1 := nat_sqrt_eq 2 1 (by decide) (by decide)
  simp [calculate_grid_dimensions, h]

/-- C1: for every `numPoints ≥ 1` and any centre coordinates and
spacing, `generate_grid_points` returns exactly `numPoints` points, in
row-major order (row index outer, column index inner, so the `pc`-th
point sits in cell `(pc / cols, pc % cols)`), with sequential ids
exactly `0..n-1`, stopping mid-row as soon as the budget is exhausted,
and with lat/lon rounded to six decimal places. -/
theorem claim_C1 (cosDeg : ℚ → ℚ) (center_lat center_lon : ℚ)
    (num_points : ℤ) (distance_km : ℚ) (rows cols : ℕ)
    (h1 : 1 ≤ num_points)
    (hd : calculate_grid_dimensions num_points = .ok (rows, cols)) :
    (generate_grid_points cosDeg center_lat center_lon num_points distance_km =
      .ok ((List.range num_points.toNat).map (fun pc =>
        { id := pc
          lat := round6 (center_lat
            + (-((rows : ℚ) - 1) / 2 + ((pc / cols : ℕ) : ℚ)) * (distance_km / 111))
          lon := round6 (center_lon
            + (-((cols : ℚ) - 1) / 2 + ((pc % cols : ℕ) : ℚ)) * (distance_km / 111)
              / cosDeg center_lat) }))) ∧
    (∀ pts, generate_grid_points cosDeg center_lat center_lon num_points distance_km
        = .ok pts →
      pts.length = num_points.toNat ∧ pts.map GridPoint.id = List.range num_points.toNat) := by
  have hmain := generate_grid_points_spec cosDeg center_lat center_lon num_points
    distance_km rows cols h1 hd
  refine ⟨hmain, ?_⟩
  intro pts hpts
  rw [hmain] at hpts
  have hpts2 := Except.ok.inj hpts
  rw [← hpts2]
  constructor
  · simp
  · rw [List.map_map]
    show List.map (fun pc => pc) (List.range num_points.toNat) = List.range num_points.toNat
    exact List.map_id _

/-- Witness for C1 at `n = 5`, spacing 111 km, centre `(0, 0)`. -/
theorem claim_C1_witness :
    ∃ pts, generate_grid_points (fun _ => 1) 0 0 5 111 = .ok pts ∧
      pts.length = (5 : ℤ).toNat ∧ pts.map GridPoint.id = List.range (5 : ℤ).toNat := by
  obtain ⟨hmain, hrest⟩ := claim_C1 (fun _ => 1) 0 0 5 111 2 3 (by decide) calc_dims_5
  exact ⟨_, hmain, hrest _ hmain⟩

/-- C2 (amended): in the flat script a failed fetch (`None`) or an
unusable payload contributes zero observations and the run continues; in
the class implementation an unusable payload is likewise skipped, but a
transport error aborts the whole run. -/
theorem claim_C2_amended :
    (∀ (pid : ℕ) (pre post : List (ℕ × Option (List Item))) (st : AggState),
      aggPoints (pre ++ (pid, none) :: post) st = aggPoints (pre ++ post) st) ∧
    (∀ (pid : ℕ) (pre post : List (ℕ × Option (List Item))) (st : AggState),
      aggPoints (pre ++ (pid, some []) :: post) st = aggPoints (pre ++ post) st) ∧
    (∀ (pid : ℕ) (pre post : List (ℕ × Option (List Item))),
      GBPAnalysisGenerator.run_analysis (pre ++ (pid, some []) :: post) =
        GBPAnalysisGenerator.run_analysis (pre ++ post)) ∧
    (∀ (pid : ℕ) (rest : List (ℕ × Option (List Item))),
      GBPAnalysisGenerator.run_analysis ((pid, none) :: rest) = .error ()) :=
  ⟨fun pid pre post st => aggPoints_skip_none pid post pre st,
   fun pid pre post st => aggPoints_skip_empty pid post pre st,
   fun pid pre post => GBPAnalysisGenerator.run_analysis_skip_empty pid pre post,
   fun pid rest => GBPAnalysisGenerator.run_analysis_abort pid rest⟩

/-- Counterexample to C2 as stated: with a transport error at point 0,
the class implementation aborts the run (`Except.error`), while the flat
script continues as if the point were absent. -/
theorem claim_C2_counterexample :
    GBPAnalysisGenerator.run_analysis [(0, none), (1, some [itemB])] = .error () ∧
    aggPoints [(0, none), (1, some [itemB])] initState =
      aggPoints [(1, some [itemB])] initState :=
  ⟨rfl, rfl⟩

/-- C4 (amended): for `numPoints ≤ 0` the dimension arithmetic raises an
unhandled exception — `ZeroDivisionError` at 0 (the division by zero is
NOT guarded), `ValueError` from `math.sqrt` below 0 — which aborts
`generate_analysis` before any fetch is consulted (the result is the
same error for every fetch oracle), rather than returning a silent empty
result. -/
theorem claim_C4_amended (num_points : ℤ) (h : num_points ≤ 0)
    (cosDeg : ℚ → ℚ) (center_lat center_lon distance_km : ℚ)
    (fetch : ℚ → ℚ → Option (List Item)) :
    calculate_grid_dimensions num_points =
      .error (if num_points < 0 then .valueError else .zeroDivisionError) ∧
    generate_analysis cosDeg center_lat center_lon num_points distance_km fetch =
      .error (if num_points < 0 then .valueError else .zeroDivisionError) := by
  have hcalc : calculate_grid_dimensions num_points =
      .error (if num_points < 0 then .valueError else .zeroDivisionError) := by
    by_cases hneg : num_points < 0
    · simp [calculate_grid_dimensions, hneg]
    · have h0 : num_points = 0 := by omega
      subst h0
      simp [calculate_grid_dimensions, Nat.sqrt_zero]
  have hgrid : generate_grid_points cosDeg center_lat center_lon num_points distance_km =
      .error (if num_points < 0 then .valueError else .zeroDivisionError) := by
    simp [generate_grid_points, hcalc]
  exact ⟨hcalc, by simp [generate_analysis, hgrid]⟩

/-- Witness for C4 at `numPoints = 0` with a dummy fetch oracle. -/
theorem claim_C4_witness :
    calculate_grid_dimensions 0 =
      .error (if (0 : ℤ) < 0 then .valueError else .zeroDivisionError) ∧
    generate_analysis (fun _ => 1) 0 0 0 1 (fun _ _ => none) =
      .error (if (0 : ℤ) < 0 then .valueError else .zeroDivisionError) :=
  claim_C4_amended 0 (by decide) (fun _ => 1) 0 0 1 (fun _ _ => none)

/-- Counterexample to C4 as stated: nothing guards the division by zero
— at `numPoints = 0` the `ZeroDivisionError` itself is raised, and at
`numPoints = -1` the failure is a `ValueError` from `math.sqrt`, not a
validation of the point count. -/
theorem claim_C4_counterexample :
    calculate_grid_dimensions 0 = .error PyError.zeroDivisionError ∧
    calculate_grid_dimensions (-1) = .error PyError.valueError :=
  ⟨calc_dims_0, calc_dims_neg1⟩

/-- C3 (amended): with distinct grid-point ids, folding the points in
any permutation yields the same rank mapping (every
`businessId -> gridPointId -> position` lookup agrees) and the same set
of registered business ids; the attribute fields of a stored
`BusinessRecord` are NOT permutation-invariant (first-seen wins, see the
counterexample), and within a point ranks are strictly positional. -/
theorem claim_C3_amended (prs prs' : List (ℕ × Option (List Item)))
    (hperm : prs.Perm prs') (hnd : (prs.map Prod.fst).Nodup) :
    (∀ b q, rankLookup (aggPoints prs initState) b q =
      rankLookup (aggPoints prs' initState) b q) ∧
    (∀ b, (dictLookup (aggPoints prs initState).all_businesses b).isSome =
      (dictLookup (aggPoints prs' initState).all_businesses b).isSome) := by
  have hnd' : (prs'.map Prod.fst).Nodup := ((hperm.map Prod.fst).nodup_iff).mp hnd
  constructor
  · intro b q
    rw [rankLookup_aggPoints_init, rankLookup_aggPoints_init]
    by_cases hq : q ∈ prs.map Prod.fst
    · obtain ⟨x, hx, hfst⟩ := List.mem_map.mp hq
      have hx2 : (q, x.2) ∈ prs := by
        rw [show (q, x.2) = x from by rw [← hfst]]
        exact hx
      have hx2' : (q, x.2) ∈ prs' := hperm.mem_iff.mp hx2
      rw [runRank_mem b q x.2 prs hnd hx2, runRank_mem b q x.2 prs' hnd' hx2']
    · have hq' : q ∉ prs'.map Prod.fst := by
        intro hcon
        exact hq ((hperm.map Prod.fst).mem_iff.mpr hcon)
      rw [runRank_not_mem b q prs hq, runRank_not_mem b q prs' hq']
  · intro b
    rw [bizLookup_aggPoints_init, bizLookup_aggPoints_init]
    rw [Option.isSome_map', Option.isSome_map']
    rw [Bool.eq_iff_iff]
    constructor
    · intro hs
      obtain ⟨it, hit⟩ := Option.isSome_iff_exists.mp hs
      obtain ⟨pid, items, hmem, hin, hd⟩ := firstSight_some b prs it hit
      exact firstSight_of_mem b prs' pid items it (hperm.mem_iff.mp hmem) hin hd
    · intro hs
      obtain ⟨it, hit⟩ := Option.isSome_iff_exists.mp hs
      obtain ⟨pid, items, hmem, hin, hd⟩ := firstSight_some b prs' it hit
      exact firstSight_of_mem b prs pid items it (hperm.mem_iff.mpr hmem) hin hd

/-- Witness for C3 (amended) on a concrete two-point permutation. -/
theorem claim_C3_witness :
    rankLookup (aggPoints [(0, some [itemA_X]), (1, some [itemB])] initState) "A" 0 =
      rankLookup (aggPoints [(1, some [itemB]), (0, some [itemA_X])] initState) "A" 0 :=
  (claim_C3_amended [(0, some [itemA_X]), (1, some [itemB])]
    [(1, some [itemB]), (0, some [itemA_X])] (by decide) (by decide)).1 "A" 0

/-- Counterexample to C3 as stated: two points return the same business
id with different names; permuting the points changes the stored
`BusinessRecord` (first-seen name wins), so the business registry is not
permutation-invariant. -/
theorem claim_C3_counterexample :
    dictLookup (aggPoints [(0, some [itemA_X]), (1, some [itemA_Y])]
        initState).all_businesses "A" ≠
      dictLookup (aggPoints [(1, some [itemA_Y]), (0, some [itemA_X])]
        initState).all_businesses "A" := by
  decide

/-- C5: an entry at 0-based index `k` of a point's result list whose
derived id is `b` (and is the defining, i.e. last, occurrence of `b` in
that list) is recorded with rank `k + 1` — the 1-based provider
position — regardless of how many earlier entries were skipped for
missing identifiers, and the whole-run mapping never renumbers it. -/
theorem claim_C5 (prs : List (ℕ × Option (List Item))) (pid : ℕ)
    (items : List Item) (k : ℕ) (it : Item) (b : String)
    (hnd : (prs.map Prod.fst).Nodup)
    (hmem : (pid, some items) ∈ prs)
    (hk : items.get? k = some it)
    (hb : derive_id it = some b)
    (hlast : ∀ j, j < items.length → k < j → idAt items j ≠ some b) :
    rankLookup (aggPoints prs initState) b pid = some (k + 1) := by
  rw [rankLookup_aggPoints_init, runRank_mem b pid (some items) prs hnd hmem]
  show lastRankFrom b 0 items = some (k + 1)
  have := lastRankFrom_last b items k it hk hb hlast 0
  simpa using this

/-- Witness for C5: two identifier-less entries precede id `A` at index
2, which is still recorded with rank 3. -/
theorem claim_C5_witness :
    rankLookup (aggPoints [(7, some [itemNoId, itemNoId, itemA_X])] initState) "A" 7 =
      some 3 :=
  claim_C5 [(7, some [itemNoId, itemNoId, itemA_X])] 7 [itemNoId, itemNoId, itemA_X]
    2 itemA_X "A" (by decide) (by decide) (by decide) (by decide) (by decide)

/-- C6: the registry is deduplicated by provider id (its key list is
nodup) and the record stored for an id is built from the first sighting
of that id in the run — later sightings never overwrite it. -/
theorem claim_C6 (prs : List (ℕ × Option (List Item))) :
    (∀ b, dictLookup (aggPoints prs initState).all_businesses b =
      (firstSight b prs).map (mkBusiness b)) ∧
    ((aggPoints prs initState).all_businesses.map Prod.fst).Nodup := by
  refine ⟨fun b => bizLookup_aggPoints_init prs b, ?_⟩
  exact nodup_keys_aggPoints prs initState (by simp [initState])

/-- C7: for `numPoints ≥ 1` the lattice shape is
`rows = ⌊√numPoints⌋` and `cols = ⌈numPoints / rows⌉` (rational
ceiling), hence `rows * cols ≥ numPoints` and `cols ≥ rows`. -/
theorem claim_C7 (num_points : ℤ) (rows cols : ℕ)
    (h1 : 1 ≤ num_points)
    (hd : calculate_grid_dimensions num_points = .ok (rows, cols)) :
    rows = Nat.sqrt num_points.toNat ∧
    (cols : ℤ) = ⌈(num_points : ℚ) / (rows : ℚ)⌉ ∧
    num_points.toNat ≤ rows * cols ∧ rows ≤ cols := by
  have heq := calculate_grid_dimensions_pos num_points h1
  rw [hd] at heq
  have heq2 := Except.ok.inj heq
  rw [Prod.mk.injEq] at heq2
  obtain ⟨hrows, hcols⟩ := heq2
  have hn : 0 < num_points.toNat := by omega
  have hr : 0 < rows := by rw [hrows]; exact Nat.sqrt_pos.mpr hn
  have hsq : rows * rows ≤ num_points.toNat := by rw [hrows]; exact Nat.sqrt_le _
  have hcover : num_points.toNat ≤ rows * cols := by
    rw [hrows, hcols]
    exact rows_mul_cols_ge _ _ (Nat.sqrt_pos.mpr hn) hn
  have hcols2 : cols = (num_points.toNat - 1) / rows + 1 := by
    rw [hcols, ← hrows]
    rw [show num_points.toNat + rows - 1 = (num_points.toNat - 1) + rows by omega]
    rw [Nat.add_div_right _ hr]
  have hrlecols : rows ≤ cols := by
    have hsub : (rows - 1) * rows = rows * rows - rows := by
      rw [Nat.sub_mul, Nat.one_mul]
    have hle : (rows - 1) * rows ≤ num_points.toNat - 1 := by omega
    have hdiv : rows - 1 ≤ (num_points.toNat - 1) / rows :=
      (Nat.le_div_iff_mul_le hr).mpr hle
    omega
  have hBnat : (cols - 1) * rows ≤ num_points.toNat - 1 := by
    rw [hcols2]
    simpa using Nat.div_mul_le_self (num_points.toNat - 1) rows
  have hc1 : 1 ≤ cols := by omega
  have hrQ : (0 : ℚ) < (rows : ℚ) := by exact_mod_cast hr
  have hcastn : ((num_points.toNat : ℕ) : ℚ) = (num_points : ℚ) := by
    have h0 : (0 : ℤ) ≤ num_points := by omega
    exact_mod_cast congrArg (fun z : ℤ => (z : ℚ)) (Int.toNat_of_nonneg h0)
  refine ⟨hrows, ?_, hcover, hrlecols⟩
  symm
  rw [Int.ceil_eq_iff]
  push_cast
  constructor
  · rw [lt_div_iff₀ hrQ]
    have hnat : (cols - 1) * rows < num_points.toNat := by omega
    have keyQ : (((cols - 1) * rows : ℕ) : ℚ) < ((num_points.toNat : ℕ) : ℚ) :=
      Nat.cast_lt.mpr hnat
    rw [Nat.cast_mul, Nat.cast_sub hc1, Nat.cast_one, hcastn] at keyQ
    exact keyQ
  · rw [div_le_iff₀ hrQ]
    have hcovQ : ((num_points.toNat : ℕ) : ℚ) ≤ ((rows * cols : ℕ) : ℚ) :=
      Nat.cast_le.mpr hcover
    rw [Nat.cast_mul, hcastn] at hcovQ
    rw [mul_comm]
    exact hcovQ

/-- Witness for C7 covering the spec's three shape examples, with the
characterisation applied at `n = 10`. -/
theorem claim_C7_witness :
    calculate_grid_dimensions 9 = .ok (3, 3) ∧
    calculate_grid_dimensions 2 = .ok (1, 2) ∧
    calculate_grid_dimensions 10 = .ok (3, 4) ∧
    ((3 : ℕ) = Nat.sqrt (10 : ℤ).toNat ∧
      ((4 : ℕ) : ℤ) = ⌈((10 : ℤ) : ℚ) / ((3 : ℕ) : ℚ)⌉ ∧
      (10 : ℤ).toNat ≤ 3 * 4 ∧ (3 : ℕ) ≤ 4) :=
  ⟨calc_dims_9, calc_dims_2, calc_dims_10,
    claim_C7 10 3 4 (by decide) calc_dims_10⟩

/-- C8: identity derivation prefers a usable (present, non-empty) place
identifier, falls back to a usable CID, else the entry is silently
discarded; consequently every business id present in the registry or in
the rank mapping traces back to some provider entry that carried that
id. -/
theorem claim_C8 :
    (∀ (it : Item) (s : String), it.place_id = some s → s ≠ "" →
      derive_id it = some s) ∧
    (∀ (it : Item) (s : String), (it.place_id = none ∨ it.place_id = some "") →
      it.cid = some s → s ≠ "" → derive_id it = some s) ∧
    (∀ it : Item, (it.place_id = none ∨ it.place_id = some "") →
      (it.cid = none ∨ it.cid = some "") → derive_id it = none) ∧
    (∀ (prs : List (ℕ × Option (List Item))) (b : String),
      (dictLookup (aggPoints prs initState).all_businesses b).isSome = true →
      ∃ pid items it, (pid, some items) ∈ prs ∧ it ∈ items ∧ derive_id it = some b) ∧
    (∀ (prs : List (ℕ × Option (List Item))) (b : String) (q : ℕ),
      (rankLookup (aggPoints prs initState) b q).isSome = true →
      ∃ pid items it, (pid, some items) ∈ prs ∧ it ∈ items ∧ derive_id it = some b) := by
  refine ⟨?_, ?_, ?_, ?_, ?_⟩
  · intro it s hp hs
    simp [derive_id, truthy, hp, hs]
  · intro it s hp hc hs
    rcases hp with hp | hp <;> simp [derive_id, truthy, hp, hc, hs]
  · intro it hp hc
    rcases hp with hp | hp <;> rcases hc with hc | hc <;>
      simp [derive_id, truthy, hp, hc]
  · intro prs b h
    rw [bizLookup_aggPoints_init, Option.isSome_map'] at h
    obtain ⟨it, hit⟩ := Option.isSome_iff_exists.mp h
    obtain ⟨pid, items, hmem, hin, hd⟩ := firstSight_some b prs it hit
    exact ⟨pid, items, it, hmem, hin, hd⟩
  · intro prs b q h
    rw [rankLookup_aggPoints_init] at h
    obtain ⟨v, hv⟩ := Option.isSome_iff_exists.mp h
    exact runRank_some b q prs v hv

/-- Witness for C8: the id `A` registered from a run traces back to a
provider entry carrying it (the identifier-less entry cannot be the
source). -/
theorem claim_C8_witness :
    ∃ pid items it, (pid, some items) ∈ [((0 : ℕ), some [itemNoId, itemA_X])] ∧
      it ∈ items ∧ derive_id it = some "A" :=
  claim_C8.2.2.2.1 [((0 : ℕ), some [itemNoId, itemA_X])] "A" (by decide)

/-- C9 (amended): the two grid generators compute the same point lists
(under the shared exact-arithmetic model), and on failure-free runs the
class aggregation produces exactly the flat script's registry and rank
mapping; a transport error makes the two runs diverge (see the
counterexample). -/
theorem claim_C9_amended :
    (∀ (cosDeg : ℚ → ℚ) (center_lat center_lon : ℚ) (num_points : ℤ)
      (distance_km : ℚ),
      GBPAnalysisGenerator.generate_grid_points cosDeg center_lat center_lon
          num_points distance_km =
        generate_grid_points cosDeg center_lat center_lon num_points distance_km) ∧
    (∀ prs : List (ℕ × Option (List Item)), (∀ e ∈ prs, e.2 ≠ none) →
      GBPAnalysisGenerator.run_analysis prs =
        .ok ((aggPoints prs initState).all_businesses,
          (aggPoints prs initState).ranking_data)) :=
  ⟨fun cosDeg a b n d => generate_grid_points_eq_flat cosDeg a b n d,
   fun prs h => GBPAnalysisGenerator.run_analysis_ok prs h⟩

/-- Witness for C9 on a failure-free two-point run. -/
theorem claim_C9_witness :
    GBPAnalysisGenerator.run_analysis [((0 : ℕ), some [itemA_X]), (1, some [itemB])] =
      .ok ((aggPoints [((0 : ℕ), some [itemA_X]), (1, some [itemB])]
          initState).all_businesses,
        (aggPoints [((0 : ℕ), some [itemA_X]), (1, some [itemB])]
          initState).ranking_data) :=
  claim_C9_amended.2 [((0 : ℕ), some [itemA_X]), (1, some [itemB])] (by decide)

/-- Counterexample to C9 as stated: on a run containing one failed
fetch, the class implementation aborts with an error and produces no
registry at all, while the flat script still registers business `A` —
the two implementations do not yield equal results on failed fetches. -/
theorem claim_C9_counterexample :
    GBPAnalysisGenerator.run_analysis [((0 : ℕ), none), (1, some [itemA_X])] =
      .error () ∧
    (aggPoints [((0 : ℕ), none), (1, some [itemA_X])] initState).all_businesses =
      [("A", mkBusiness "A" itemA_X)] :=
  ⟨rfl, by decide⟩

/-- C10 (implicit): if the same id occurs at two positions of one
point's list, the recorded rank is the last occurrence's position while
the stored record's fields come from the first occurrence. -/
theorem claim_C10 (pid k1 k2 : ℕ) (items : List Item) (it1 it2 : Item) (b : String)
    (h1 : items.get? k1 = some it1) (h2 : items.get? k2 = some it2)
    (hlt : k1 < k2)
    (hb1 : derive_id it1 = some b) (hb2 : derive_id it2 = some b)
    (hfirst : ∀ j, j < k1 → idAt items j ≠ some b)
    (hlast : ∀ j, j < items.length → k2 < j → idAt items j ≠ some b) :
    rankLookup (aggPoints [(pid, some items)] initState) b pid = some (k2 + 1) ∧
    dictLookup (aggPoints [(pid, some items)] initState).all_businesses b =
      some (mkBusiness b it1) := by
  constructor
  · rw [rankLookup_aggPoints_init,
      runRank_mem b pid (some items) [(pid, some items)] (by simp)
        (List.mem_cons_self _ _)]
    show lastRankFrom b 0 items = some (k2 + 1)
    have := lastRankFrom_last b items k2 it2 h2 hb2 hlast 0
    simpa using this
  · rw [bizLookup_aggPoints_init]
    simp only [firstSight]
    rw [find_first b items k1 it1 h1 hb1 hfirst]
    rfl

/-- Witness for C10: id `A` at indices 0 and 1 with different names —
rank 2 is recorded, the stored record keeps the first name. -/
theorem claim_C10_witness :
    rankLookup (aggPoints [(4, some [itemA_X, itemA_Y])] initState) "A" 4 = some 2 ∧
    dictLookup (aggPoints [(4, some [itemA_X, itemA_Y])] initState).all_businesses "A" =
      some (mkBusiness "A" itemA_X) :=
  claim_C10 4 0 1 [itemA_X, itemA_Y] itemA_X itemA_Y "A" (by decide) (by decide)
    (by decide) (by decide) (by decide) (by decide) (by decide)
